import Mathlib

/-!
Verification of the `ai-commit` command-line helper (src/ai-commit.js).

The program is sequential glue over git, the filesystem and a remote
text-generation API, driven by an interactive resolution loop.  We embed the
pure decision logic shallowly: strings are `List Char` (JS strings restricted
to Unicode scalar values), the interactive inputs (user decision tokens, edit
lines, generator outputs) are explicit oracle lists consumed in program order,
and the externally visible effects (generator invocations, `git add`,
`git commit`, error reports) are recorded in an event trace.
-/

/-- Strings of the JS program, modelled as lists of Unicode scalar values. -/
abbrev Str := List Char

/-- Model of `String.prototype.toLowerCase` on one character, restricted to
ASCII (full Unicode lowercasing agrees with this on the ASCII decision tokens
the program compares against). -/
def charToLower (c : Char) : Char :=
  if 65 ≤ c.toNat ∧ c.toNat ≤ 90 then Char.ofNat (c.toNat + 32) else c

/-- Model of `choice.toLowerCase()` as applied in `getUserChoice`. -/
def toLowerStr (s : Str) : Str := s.map charToLower

/-- Model of `getEditedMessage`: `readline` resolves `newMessage || originalMessage`,
and the empty string is the only falsy string, so an empty edit line keeps the
original message and any non-empty line replaces it. -/
def getEditedMessage (originalMessage newMessage : Str) : Str :=
  if newMessage = [] then originalMessage else newMessage

/-- Externally visible effects of one run, in program order. -/
inductive Event where
  /-- `generateCommitMessage(diff, files, projectType)` was invoked (one remote
  network call). -/
  | generate (diff : Str) (files : List Str) (ptype : Str)
  /-- `git add "<path>"` was executed for one path during auto-staging. -/
  | gitAdd (path : Str)
  /-- `git commit -m ...` was executed with message `msg`; `ok` records whether
  the commit succeeded (a commit is created exactly when `ok = true`). -/
  | gitCommit (msg : Str) (ok : Bool)
  /-- the `catch` block of `commitChanges` printed its failure report. -/
  | reportCommitError
  /-- the `default` branch printed `Invalid option. Please choose a, e, r, or c.` -/
  | invalidGuidance
  deriving DecidableEq

/-- Result of the interactive `while (true)` loop in `run`. -/
inductive LoopResult where
  /-- the `case 'a'` branch ran `commitChanges(msg)` and returned;
  `ok` records whether the commit succeeded. -/
  | committed (msg : Str) (ok : Bool)
  /-- the `case 'c'` branch returned. -/
  | cancelled
  /-- the oracle input ran out: the real program would block reading further
  input while holding candidate `candidate` (a non-terminal situation). -/
  | pending (candidate : Str)
  deriving DecidableEq

/-- Model of `commitChanges(message)`: it runs `git commit`, and on failure the
local `catch` prints a report and returns normally (nothing is rethrown). -/
def commitChanges (commitOk : Bool) (msg : Str) : List Event :=
  Event.gitCommit msg commitOk :: (if commitOk then [] else [Event.reportCommitError])

/-- Model of the `while (true)` resolution loop of `run` (src/ai-commit.js,
lines 269-293).  `choices` are the successive raw answers to the option
prompt (lowercased by `getUserChoice` before the `switch`), `edits` the
successive answers to the edit prompt, `gens` the successive outputs of
`generateCommitMessage` for regenerations, and `msg` the current candidate.
`diff`, `files`, `ptype` and `commitOk` are fixed for the whole loop, exactly
as in the source where they are bound before the loop and never reassigned. -/
def loop (diff : Str) (files : List Str) (ptype : Str) (commitOk : Bool) :
    List Str → List Str → List Str → Str → LoopResult × List Event
  | [], _, _, msg => (LoopResult.pending msg, [])
  | raw :: cs, edits, gens, msg =>
    if toLowerStr raw = "a".data then
      (LoopResult.committed msg commitOk, commitChanges commitOk msg)
    else if toLowerStr raw = "e".data then
      match edits with
      | [] => (LoopResult.pending msg, [])
      | e :: es => loop diff files ptype commitOk cs es gens (getEditedMessage msg e)
    else if toLowerStr raw = "r".data then
      match gens with
      | [] => (LoopResult.pending msg, [])
      | g :: gs =>
        ((loop diff files ptype commitOk cs edits gs g).1,
          Event.generate diff files ptype :: (loop diff files ptype commitOk cs edits gs g).2)
    else if toLowerStr raw = "c".data then
      (LoopResult.cancelled, [])
    else
      ((loop diff files ptype commitOk cs edits gens msg).1,
        Event.invalidGuidance :: (loop diff files ptype commitOk cs edits gens msg).2)

/-- The candidate text in effect after processing a prefix of decisions: the
initial message, updated by each edit (empty edit line keeps the previous
candidate) and each regeneration (candidate replaced by the next generator
output); other tokens leave it unchanged. -/
def candidateFold : List Str → List Str → List Str → Str → Str
  | [], _, _, msg => msg
  | raw :: cs, edits, gens, msg =>
    if toLowerStr raw = "e".data then
      match edits with
      | [] => msg
      | e :: es => candidateFold cs es gens (getEditedMessage msg e)
    else if toLowerStr raw = "r".data then
      match gens with
      | [] => msg
      | g :: gs => candidateFold cs edits gs g
    else candidateFold cs edits gens msg

/-- Number of occurrences of decision token `t` (after lowercasing) in a list
of raw choice inputs. -/
def countTok (t : Str) : List Str → Nat
  | [] => 0
  | x :: xs => (if toLowerStr x = t then 1 else 0) + countTok t xs

/-- The `git commit` invocations recorded in a trace, each with its message
and whether it succeeded. -/
def commitAttempts (tr : List Event) : List (Str × Bool) :=
  tr.filterMap fun e =>
    match e with
    | Event.gitCommit m ok => some (m, ok)
    | _ => none

/-- Number of commit-failure reports in a trace. -/
def reportCount (tr : List Event) : Nat :=
  (tr.filterMap fun e =>
    match e with
    | Event.reportCommitError => some ()
    | _ => none).length

/-- Whitespace as trimmed by `String.prototype.trim` (ASCII part; git
porcelain output contains no exotic Unicode whitespace). -/
def isWsChar (c : Char) : Bool :=
  c = ' ' ∨ c = Char.ofNat 9 ∨ c = Char.ofNat 10 ∨ c = Char.ofNat 13 ∨ c = Char.ofNat 12 ∨ c = Char.ofNat 11

/-- Model of `s.trim()`: strip whitespace from both ends. -/
def trimStr (s : Str) : Str :=
  ((s.dropWhile isWsChar).reverse.dropWhile isWsChar).reverse

/-- Model of `s.split('\n')`. -/
def splitLines : Str → List Str
  | [] => [[]]
  | c :: r =>
    match splitLines r with
    | [] => [[]]
    | l :: ls => if c = Char.ofNat 10 then [] :: l :: ls else (c :: l) :: ls

/-- Does `hay` start with `needle`? -/
def startsWithSub : Str → Str → Bool
  | [], _ => true
  | _ :: _, [] => false
  | a :: as, b :: bs => a = b && startsWithSub as bs

/-- Model of `hay.includes(needle)` for JS strings: does `needle` occur as a
contiguous substring of `hay`? -/
def hasSub (needle : Str) : Str → Bool
  | [] => needle.isEmpty
  | c :: r => startsWithSub needle (c :: r) || hasSub needle r

/-- One entry produced by `getModifiedFiles`: `status = line.substring(0, 2)`,
`filename = line.substring(3)`. -/
structure GitFile where
  status : Str
  filename : Str
  deriving DecidableEq

/-- Model of `getModifiedFiles`: parse `git status --porcelain` output `raw` by
`raw.trim().split('\n')`, drop empty lines, split each line into its first two
characters (status) and the characters from index 3 on (filename), and keep an
entry iff its status contains `M`, `A` or `R` and its filename does not contain
the substring `node_modules/`. -/
def getModifiedFiles (raw : Str) : List GitFile :=
  (((splitLines (trimStr raw)).filter (fun l => 0 < l.length)).map
      (fun l => GitFile.mk (l.take 2) (l.drop 3))).filter
    (fun f =>
      (f.status.contains 'M' || f.status.contains 'A' || f.status.contains 'R')
        && !(hasSub "node_modules/".data f.filename))

/-- Result of `autoStageFiles()` (its boolean return, refined with what was
staged). -/
inductive StageResult where
  /-- returned `false` because `getModifiedFiles` was empty. -/
  | noFiles
  /-- one of the `git add` calls threw; the `catch` printed a report and
  returned `false`.  (We do not model which paths were already added before
  the failure.) -/
  | failed
  /-- all `git add` calls succeeded; returned `true`. -/
  | staged (paths : List Str)
  deriving DecidableEq

/-- Model of `autoStageFiles()`: compute the eligible files; if none, return
`noFiles`; otherwise run `git add "<filename>"` for each, in order.  `stageOk`
is the oracle for whether the `git add` subprocesses succeed. -/
def autoStageFiles (porcelain : Str) (stageOk : Bool) : StageResult × List Event :=
  let mf := getModifiedFiles porcelain
  if mf = [] then (StageResult.noFiles, [])
  else if stageOk then
    (StageResult.staged (mf.map GitFile.filename), mf.map (fun f => Event.gitAdd f.filename))
  else (StageResult.failed, [])

/-- The outside world as seen by one execution of `run()`: every value an
external collaborator (git, the terminal, the generation API) hands back,
in the order the program asks for it. -/
structure RunEnv where
  /-- does `git rev-parse --git-dir` succeed (`isGitRepo`)? -/
  isRepo : Bool
  /-- output of the first `git diff --staged` (`getStagedChanges`). -/
  stagedDiff1 : Str
  /-- output of `git status --porcelain` (read by `getModifiedFiles`). -/
  porcelain : Str
  /-- do the `git add` subprocesses of `autoStageFiles` succeed? -/
  stageOk : Bool
  /-- output of the second `git diff --staged`, after auto-staging. -/
  stagedDiff2 : Str
  /-- the file list produced by `getFileList()`. -/
  files : List Str
  /-- the label produced by `getProjectContext()`. -/
  projectType : Str
  /-- successive outputs of `generateCommitMessage` (initial generation first,
  then one per regeneration). -/
  gens : List Str
  /-- successive raw answers to the option prompt. -/
  choices : List Str
  /-- successive raw answers to the edit prompt. -/
  edits : List Str
  /-- does `git commit` succeed? -/
  commitOk : Bool

/-- How one execution of `run()` ends. -/
inductive RunOutcome where
  /-- `process.exit(code)` was called. -/
  | exited (code : Nat)
  /-- `run()` returned normally, so the process terminates with exit status 0. -/
  | finished
  /-- model artifact: an oracle list ran out where the real program would
  block waiting for more input. -/
  | blocked
  deriving DecidableEq

/-- The process exit status an outcome stands for (`none` when the model run
blocked on missing oracle input). -/
def exitStatus : RunOutcome → Option Nat
  | RunOutcome.exited code => some code
  | RunOutcome.finished => some 0
  | RunOutcome.blocked => none

/-- The part of `run()` from the initial `generateCommitMessage` call on, once
the diff to analyse is settled: perform the initial generation, then enter the
resolution loop.  `pre` are the events already emitted (auto-staging). -/
def runFromGeneration (env : RunEnv) (diff : Str) (pre : List Event) :
    RunOutcome × List Event :=
  match env.gens with
  | [] => (RunOutcome.blocked, pre)
  | g0 :: grest =>
    let r := loop diff env.files env.projectType env.commitOk env.choices env.edits grest g0
    ((match r.1 with
      | LoopResult.pending _ => RunOutcome.blocked
      | _ => RunOutcome.finished),
      pre ++ Event.generate diff env.files env.projectType :: r.2)

/-- Model of `run()` (src/ai-commit.js lines 233-298): exit 1 when not a git
repository; fetch the staged diff; when it is blank after trimming, auto-stage
(exiting 1 when that returns `false`) and re-fetch the diff; then generate the
initial candidate and drive the resolution loop.  The credential-setup step is
not modelled: it always completes and does not affect any later control flow
modelled here. -/
def runModel (env : RunEnv) : RunOutcome × List Event :=
  if env.isRepo = false then (RunOutcome.exited 1, [])
  else if trimStr env.stagedDiff1 = [] then
    match autoStageFiles env.porcelain env.stageOk with
    | (StageResult.noFiles, _) => (RunOutcome.exited 1, [])
    | (StageResult.failed, ev) => (RunOutcome.exited 1, ev)
    | (StageResult.staged _, ev) => runFromGeneration env env.stagedDiff2 ev
  else runFromGeneration env env.stagedDiff1 []

/-- The diff the run settles on before generation: the initially staged diff
when it is non-blank, otherwise the diff re-fetched after auto-staging. -/
def diffUsed (env : RunEnv) : Str :=
  if trimStr env.stagedDiff1 = [] then env.stagedDiff2 else env.stagedDiff1


/-- Model of `message.replace(/"/g, '\\"')` in `commitChanges`: every
double-quote character becomes backslash + double quote; nothing else is
touched. -/
def escapeQuotes : Str → Str
  | [] => []
  | c :: r => if c = '"' then '\\' :: '"' :: escapeQuotes r else c :: escapeQuotes r

/-- POSIX shell processing of the characters following an opening double
quote: returns the literal text the shell produces for that quoted part,
together with the input remaining after the closing quote.  Inside double
quotes a backslash is special exactly before `$`, a backquote, `"`, `\` or a
newline (line continuation, which is removed); an unescaped `$` or backquote
would start an expansion, so the result would not be a fixed literal and the
model returns `none`; an unterminated quote is a syntax error, also `none`. -/
def dquoteRun : Str → Option (Str × Str)
  | [] => none
  | c :: r =>
    if c = '"' then some ([], r)
    else if c = '\\' then
      match r with
      | [] => none
      | d :: r' =>
        if d = '"' ∨ d = '\\' ∨ d = '$' ∨ d = Char.ofNat 96 then
          (dquoteRun r').map (fun p => (d :: p.1, p.2))
        else if d = Char.ofNat 10 then dquoteRun r'
        else (dquoteRun r').map (fun p => (c :: d :: p.1, p.2))
    else if c = '$' ∨ c = Char.ofNat 96 then none
    else (dquoteRun r).map (fun p => (c :: p.1, p.2))

/-- The `-m` argument text `git` actually receives when `commitChanges` runs
`git commit -m "<escapeQuotes msg>"` through the shell: the double-quoted word
is parsed by the shell, and the result is a fixed literal only when the word
is one cleanly terminated double-quoted string with no expansion (`none`
otherwise: broken quoting or expansion-dependent). -/
def argDeliveredToGit (msg : Str) : Option Str :=
  match dquoteRun (escapeQuotes msg ++ ['"']) with
  | some (content, []) => some content
  | _ => none

/-- Lowercase hexadecimal digit for a value below 16, as emitted by
`JSON.stringify` in `\u00..` escapes. -/
def hexDig (n : Nat) : Char :=
  if n < 10 then Char.ofNat (48 + n) else Char.ofNat (87 + n)

/-- Value of one hexadecimal digit as accepted by `JSON.parse`. -/
def hexVal (c : Char) : Option Nat :=
  if 48 ≤ c.toNat ∧ c.toNat ≤ 57 then some (c.toNat - 48)
  else if 97 ≤ c.toNat ∧ c.toNat ≤ 102 then some (c.toNat - 87)
  else if 65 ≤ c.toNat ∧ c.toNat ≤ 70 then some (c.toNat - 55)
  else none

/-- How `JSON.stringify` renders one character inside a string literal:
double quote and backslash are backslash-escaped, the common control
characters get their short escapes, the remaining control characters get
`\u00..` escapes, and everything else is emitted verbatim. -/
def jsonEscapeChar (c : Char) : Str :=
  if c = '"' then ['\\', '"']
  else if c = '\\' then ['\\', '\\']
  else if c = Char.ofNat 8 then ['\\', 'b']
  else if c = Char.ofNat 9 then ['\\', 't']
  else if c = Char.ofNat 10 then ['\\', 'n']
  else if c = Char.ofNat 12 then ['\\', 'f']
  else if c = Char.ofNat 13 then ['\\', 'r']
  else if c.toNat < 32 then ['\\', 'u', '0', '0', hexDig (c.toNat / 16), hexDig (c.toNat % 16)]
  else [c]

/-- `JSON.stringify` rendering of the characters of a string (without the
surrounding quotes). -/
def jsonEscapeString : Str → Str
  | [] => []
  | c :: s => jsonEscapeChar c ++ jsonEscapeString s

/-- `JSON.parse` processing of a string literal body (the input starts just
after the opening quote): returns the decoded string and the input remaining
after the closing quote, or `none` on malformed input (unterminated literal,
bad escape, raw control character). -/
def parseJsonStr : Str → Option (Str × Str)
  | [] => none
  | c :: r =>
    if c = '"' then some ([], r)
    else if c = '\\' then
      match r with
      | [] => none
      | d :: r' =>
        if d = '"' then (parseJsonStr r').map (fun p => ('"' :: p.1, p.2))
        else if d = '\\' then (parseJsonStr r').map (fun p => ('\\' :: p.1, p.2))
        else if d = '/' then (parseJsonStr r').map (fun p => ('/' :: p.1, p.2))
        else if d = 'b' then (parseJsonStr r').map (fun p => (Char.ofNat 8 :: p.1, p.2))
        else if d = 't' then (parseJsonStr r').map (fun p => (Char.ofNat 9 :: p.1, p.2))
        else if d = 'n' then (parseJsonStr r').map (fun p => (Char.ofNat 10 :: p.1, p.2))
        else if d = 'f' then (parseJsonStr r').map (fun p => (Char.ofNat 12 :: p.1, p.2))
        else if d = 'r' then (parseJsonStr r').map (fun p => (Char.ofNat 13 :: p.1, p.2))
        else if d = 'u' then
          match r' with
          | h1 :: h2 :: h3 :: h4 :: r2 =>
            match hexVal h1, hexVal h2, hexVal h3, hexVal h4 with
            | some a, some b, some c3, some c4 =>
              (parseJsonStr r2).map
                (fun p => (Char.ofNat (a * 4096 + b * 256 + c3 * 16 + c4) :: p.1, p.2))
            | _, _, _, _ => none
          | _ => none
        else none
    else if c.toNat < 32 then none
    else (parseJsonStr r).map (fun p => (c :: p.1, p.2))

/-- JSON whitespace skipping, as `JSON.parse` does between tokens. -/
def skipWs : Str → Str
  | [] => []
  | c :: r =>
    if c = ' ' ∨ c = Char.ofNat 9 ∨ c = Char.ofNat 10 ∨ c = Char.ofNat 13 then skipWs r
    else c :: r

/-- Model of `JSON.parse` restricted to the document shape `saveConfig`
writes — an object with the single string member `apiKey` — returning that
member's value.  (On any other document the real `loadConfig` either finds no
truthy `apiKey` or throws and is caught; both leave the client uninitialized,
which is how `none` is read here.) -/
def parseConfigFile (s : Str) : Option Str :=
  match skipWs s with
  | c0 :: r1 =>
    if c0 = Char.ofNat 123 then
      match skipWs r1 with
      | c1 :: r2 =>
        if c1 = '"' then
          match parseJsonStr r2 with
          | some (key, r3) =>
            if key = "apiKey".data then
              match skipWs r3 with
              | c2 :: r4 =>
                if c2 = ':' then
                  match skipWs r4 with
                  | c5 :: r5 =>
                    if c5 = '"' then
                      match parseJsonStr r5 with
                      | some (v, r6) =>
                        match skipWs r6 with
                        | c6 :: r7 =>
                          if c6 = Char.ofNat 125 ∧ skipWs r7 = [] then some v else none
                        | [] => none
                      | none => none
                    else none
                  | [] => none
                else none
              | [] => none
            else none
          | none => none
        else none
      | [] => none
    else none
  | [] => none

/-- The exact file content `saveConfig(apiKey)` writes:
`JSON.stringify({ apiKey }, null, 2)`, i.e. an object whose only member is
`apiKey` with the given string value, pretty-printed with 2-space indent. -/
def saveConfigContent (apiKey : Str) : Str :=
  Char.ofNat 123 :: Char.ofNat 10 :: ' ' :: ' ' :: '"' ::
    'a' :: 'p' :: 'i' :: 'K' :: 'e' :: 'y' :: '"' :: ':' :: ' ' :: '"' ::
    (jsonEscapeString apiKey ++ ['"', Char.ofNat 10, Char.ofNat 125])

/-- Model of `loadConfig` applied to a config-file content: parse it, and when
`config.apiKey` is truthy (a non-empty string) initialize the API client with
it; otherwise (empty string, missing member, or a parse error caught by the
surrounding `try`) leave the client `none`. -/
def loadConfigClient (file : Str) : Option Str :=
  match parseConfigFile file with
  | some k => if k = [] then none else some k
  | none => none

/-!
Helper lemmas about event traces and the resolution loop.
-/

@[simp] theorem commitAttempts_nil : commitAttempts [] = [] := rfl

@[simp] theorem commitAttempts_generate (d : Str) (f : List Str) (p : Str) (tr : List Event) :
    commitAttempts (Event.generate d f p :: tr) = commitAttempts tr := rfl

@[simp] theorem commitAttempts_gitAdd (pa : Str) (tr : List Event) :
    commitAttempts (Event.gitAdd pa :: tr) = commitAttempts tr := rfl

@[simp] theorem commitAttempts_gitCommit (m : Str) (ok : Bool) (tr : List Event) :
    commitAttempts (Event.gitCommit m ok :: tr) = (m, ok) :: commitAttempts tr := rfl

@[simp] theorem commitAttempts_report (tr : List Event) :
    commitAttempts (Event.reportCommitError :: tr) = commitAttempts tr := rfl

@[simp] theorem commitAttempts_invalid (tr : List Event) :
    commitAttempts (Event.invalidGuidance :: tr) = commitAttempts tr := rfl

@[simp] theorem commitAttempts_append (a b : List Event) :
    commitAttempts (a ++ b) = commitAttempts a ++ commitAttempts b := by
  simp [commitAttempts]

@[simp] theorem reportCount_nil : reportCount [] = 0 := rfl

@[simp] theorem reportCount_generate (d : Str) (f : List Str) (p : Str) (tr : List Event) :
    reportCount (Event.generate d f p :: tr) = reportCount tr := rfl

@[simp] theorem reportCount_gitAdd (pa : Str) (tr : List Event) :
    reportCount (Event.gitAdd pa :: tr) = reportCount tr := rfl

@[simp] theorem reportCount_gitCommit (m : Str) (ok : Bool) (tr : List Event) :
    reportCount (Event.gitCommit m ok :: tr) = reportCount tr := rfl

@[simp] theorem reportCount_report (tr : List Event) :
    reportCount (Event.reportCommitError :: tr) = reportCount tr + 1 := rfl

@[simp] theorem reportCount_invalid (tr : List Event) :
    reportCount (Event.invalidGuidance :: tr) = reportCount tr := rfl

theorem countTok_pos (t x : Str) (xs : List Str) (h : toLowerStr x = t) :
    countTok t (x :: xs) = countTok t xs + 1 := by
  simp [countTok, h, Nat.add_comm]

theorem countTok_neg (t x : Str) (xs : List Str) (h : toLowerStr x ≠ t) :
    countTok t (x :: xs) = countTok t xs := by
  simp [countTok, h]

theorem loop_tok_a (d : Str) (f : List Str) (p : Str) (ok : Bool) (raw : Str)
    (cs edits gens : List Str) (msg : Str) (h : toLowerStr raw = "a".data) :
    loop d f p ok (raw :: cs) edits gens msg
      = (LoopResult.committed msg ok, commitChanges ok msg) := by
  simp [loop, h]

theorem loop_tok_e (d : Str) (f : List Str) (p : Str) (ok : Bool) (raw e : Str)
    (cs es gens : List Str) (msg : Str) (h : toLowerStr raw = "e".data) :
    loop d f p ok (raw :: cs) (e :: es) gens msg
      = loop d f p ok cs es gens (getEditedMessage msg e) := by
  simp [loop, h]

theorem loop_tok_r (d : Str) (f : List Str) (p : Str) (ok : Bool) (raw g : Str)
    (cs edits gs : List Str) (msg : Str) (h : toLowerStr raw = "r".data) :
    loop d f p ok (raw :: cs) edits (g :: gs) msg
      = ((loop d f p ok cs edits gs g).1,
          Event.generate d f p :: (loop d f p ok cs edits gs g).2) := by
  simp [loop, h]

theorem loop_tok_c (d : Str) (f : List Str) (p : Str) (ok : Bool) (raw : Str)
    (cs edits gens : List Str) (msg : Str) (h : toLowerStr raw = "c".data) :
    loop d f p ok (raw :: cs) edits gens msg = (LoopResult.cancelled, []) := by
  simp [loop, h]

theorem loop_tok_other (d : Str) (f : List Str) (p : Str) (ok : Bool) (raw : Str)
    (cs edits gens : List Str) (msg : Str)
    (ha : toLowerStr raw ≠ "a".data) (he : toLowerStr raw ≠ "e".data)
    (hr : toLowerStr raw ≠ "r".data) (hc : toLowerStr raw ≠ "c".data) :
    loop d f p ok (raw :: cs) edits gens msg
      = ((loop d f p ok cs edits gens msg).1,
          Event.invalidGuidance :: (loop d f p ok cs edits gens msg).2) := by
  simp [loop, ha, he, hr, hc]

theorem candidateFold_tok_e (raw e : Str) (cs es gens : List Str) (msg : Str)
    (h : toLowerStr raw = "e".data) :
    candidateFold (raw :: cs) (e :: es) gens msg
      = candidateFold cs es gens (getEditedMessage msg e) := by
  simp [candidateFold, h]

theorem candidateFold_tok_r (raw g : Str) (cs edits gs : List Str) (msg : Str)
    (h : toLowerStr raw = "r".data) :
    candidateFold (raw :: cs) edits (g :: gs) msg = candidateFold cs edits gs g := by
  simp [candidateFold, h]

theorem candidateFold_tok_other (raw : Str) (cs edits gens : List Str) (msg : Str)
    (he : toLowerStr raw ≠ "e".data) (hr : toLowerStr raw ≠ "r".data) :
    candidateFold (raw :: cs) edits gens msg = candidateFold cs edits gens msg := by
  simp [candidateFold, he, hr]

/-- Processing a block of decisions none of which is `a` or `c` (after
lowercasing), with enough edit and generator inputs available, neither
commits nor reports: it only advances the candidate to its fold and consumes
the corresponding oracle inputs. -/
theorem loop_skip (d : Str) (f : List Str) (p : Str) (ok : Bool) (cs : List Str) :
    ∀ (edits gens : List Str) (msg : Str) (ds : List Str),
      (∀ x ∈ cs, toLowerStr x ≠ "a".data ∧ toLowerStr x ≠ "c".data) →
      countTok "e".data cs ≤ edits.length →
      countTok "r".data cs ≤ gens.length →
      (loop d f p ok (cs ++ ds) edits gens msg).1
          = (loop d f p ok ds (edits.drop (countTok "e".data cs))
              (gens.drop (countTok "r".data cs)) (candidateFold cs edits gens msg)).1
        ∧ commitAttempts (loop d f p ok (cs ++ ds) edits gens msg).2
          = commitAttempts (loop d f p ok ds (edits.drop (countTok "e".data cs))
              (gens.drop (countTok "r".data cs)) (candidateFold cs edits gens msg)).2
        ∧ reportCount (loop d f p ok (cs ++ ds) edits gens msg).2
          = reportCount (loop d f p ok ds (edits.drop (countTok "e".data cs))
              (gens.drop (countTok "r".data cs)) (candidateFold cs edits gens msg)).2 := by
  induction cs with
  | nil =>
    intro edits gens msg ds _ _ _
    simp [countTok, candidateFold]
  | cons raw cs ih =>
    intro edits gens msg ds h he hr
    have hna : toLowerStr raw ≠ "a".data := (h raw (by simp)).1
    have hnc : toLowerStr raw ≠ "c".data := (h raw (by simp)).2
    have h' : ∀ x ∈ cs, toLowerStr x ≠ "a".data ∧ toLowerStr x ≠ "c".data :=
      fun x hx => h x (by simp [hx])
    by_cases hee : toLowerStr raw = "e".data
    · have hre : toLowerStr raw ≠ "r".data := by rw [hee]; decide
      rw [countTok_pos _ _ _ hee] at he
      rw [countTok_neg _ _ _ hre] at hr
      cases edits with
      | nil => simp at he
      | cons e es =>
        have he' : countTok "e".data cs ≤ es.length := by
          rw [List.length_cons] at he; omega
        rw [List.cons_append, loop_tok_e _ _ _ _ _ _ _ _ _ _ hee,
          candidateFold_tok_e _ _ _ _ _ _ hee, countTok_pos _ _ _ hee,
          countTok_neg _ _ _ hre, List.drop_succ_cons]
        exact ih es gens (getEditedMessage msg e) ds h' he' hr
    · by_cases hrr : toLowerStr raw = "r".data
      · have hne : toLowerStr raw ≠ "e".data := hee
        rw [countTok_pos _ _ _ hrr] at hr
        rw [countTok_neg _ _ _ hne] at he
        cases gens with
        | nil => simp at hr
        | cons g gs =>
          have hr' : countTok "r".data cs ≤ gs.length := by
            rw [List.length_cons] at hr; omega
          rw [List.cons_append, loop_tok_r _ _ _ _ _ _ _ _ _ _ hrr,
            candidateFold_tok_r _ _ _ _ _ _ hrr, countTok_pos _ _ _ hrr,
            countTok_neg _ _ _ hne, List.drop_succ_cons]
          have := ih edits gs g ds h' he hr'
          refine ⟨this.1, ?_, ?_⟩
          · simpa using this.2.1
          · simpa using this.2.2
      · rw [countTok_neg _ _ _ hee] at he
        rw [countTok_neg _ _ _ hrr] at hr
        rw [List.cons_append, loop_tok_other _ _ _ _ _ _ _ _ _ hna hee hrr hnc,
          candidateFold_tok_other _ _ _ _ _ hee hrr, countTok_neg _ _ _ hee,
          countTok_neg _ _ _ hrr]
        have := ih edits gens msg ds h' he hr
        refine ⟨this.1, ?_, ?_⟩
        · simpa using this.2.1
        · simpa using this.2.2

theorem loop_tok_e_nil (d : Str) (f : List Str) (p : Str) (ok : Bool) (raw : Str)
    (cs gens : List Str) (msg : Str) (h : toLowerStr raw = "e".data) :
    loop d f p ok (raw :: cs) [] gens msg = (LoopResult.pending msg, []) := by
  simp [loop, h]

theorem loop_tok_r_nil (d : Str) (f : List Str) (p : Str) (ok : Bool) (raw : Str)
    (cs edits : List Str) (msg : Str) (h : toLowerStr raw = "r".data) :
    loop d f p ok (raw :: cs) edits [] msg = (LoopResult.pending msg, []) := by
  simp [loop, h]

/-- Every generator invocation recorded by the loop carries exactly the
`diff`, `files` and `projectType` the loop was entered with. -/
theorem loop_generate_mem (d : Str) (f : List Str) (p : Str) (ok : Bool) (cs : List Str) :
    ∀ (edits gens : List Str) (msg d' : Str) (f' : List Str) (p' : Str),
      Event.generate d' f' p' ∈ (loop d f p ok cs edits gens msg).2 →
      d' = d ∧ f' = f ∧ p' = p := by
  induction cs with
  | nil =>
    intro edits gens msg d' f' p' hmem
    simp [loop] at hmem
  | cons raw cs ih =>
    intro edits gens msg d' f' p' hmem
    by_cases ha : toLowerStr raw = "a".data
    · rw [loop_tok_a _ _ _ _ _ _ _ _ _ ha] at hmem
      cases ok <;> simp [commitChanges] at hmem
    · by_cases hee : toLowerStr raw = "e".data
      · cases edits with
        | nil =>
          rw [loop_tok_e_nil _ _ _ _ _ _ _ _ hee] at hmem
          simp at hmem
        | cons e es =>
          rw [loop_tok_e _ _ _ _ _ _ _ _ _ _ hee] at hmem
          exact ih es gens (getEditedMessage msg e) d' f' p' hmem
      · by_cases hrr : toLowerStr raw = "r".data
        · cases gens with
          | nil =>
            rw [loop_tok_r_nil _ _ _ _ _ _ _ _ hrr] at hmem
            simp at hmem
          | cons g gs =>
            rw [loop_tok_r _ _ _ _ _ _ _ _ _ _ hrr] at hmem
            simp only [List.mem_cons] at hmem
            rcases hmem with heq | hmem
            · injection heq with h1 h2 h3
              exact ⟨h1, h2, h3⟩
            · exact ih edits gs g d' f' p' hmem
        · by_cases hc : toLowerStr raw = "c".data
          · rw [loop_tok_c _ _ _ _ _ _ _ _ _ hc] at hmem
            simp at hmem
          · rw [loop_tok_other _ _ _ _ _ _ _ _ _ ha hee hrr hc] at hmem
            simp only [List.mem_cons] at hmem
            rcases hmem with heq | hmem
            · exact absurd heq (by simp)
            · exact ih edits gens msg d' f' p' hmem

@[simp] theorem commitAttempts_gitAdds (l : List GitFile) :
    commitAttempts (l.map fun f => Event.gitAdd f.filename) = [] := by
  induction l with
  | nil => rfl
  | cons a l ih => simp [ih]

@[simp] theorem reportCount_gitAdds (l : List GitFile) :
    reportCount (l.map fun f => Event.gitAdd f.filename) = 0 := by
  induction l with
  | nil => rfl
  | cons a l ih => simp [ih]

@[simp] theorem reportCount_append (a b : List Event) :
    reportCount (a ++ b) = reportCount a + reportCount b := by
  simp [reportCount]

@[simp] theorem generate_not_mem_gitAdds (l : List GitFile) (d : Str) (f : List Str) (p : Str) :
    Event.generate d f p ∉ (l.map fun x => Event.gitAdd x.filename) := by
  induction l with
  | nil => simp
  | cons a l ih => simp [ih]

/-- When the program is in a git repository and either something is already
staged or auto-staging succeeds on a non-empty eligible set, the run reaches
the generation step with the settled diff; the events emitted before
generation are only `git add` calls. -/
theorem runModel_reach (env : RunEnv) (hrepo : env.isRepo = true)
    (hreach : trimStr env.stagedDiff1 ≠ [] ∨
      (getModifiedFiles env.porcelain ≠ [] ∧ env.stageOk = true)) :
    ∃ pre, runModel env = runFromGeneration env (diffUsed env) pre
      ∧ commitAttempts pre = []
      ∧ reportCount pre = 0
      ∧ ∀ (d : Str) (f : List Str) (p : Str), Event.generate d f p ∉ pre := by
  by_cases ht : trimStr env.stagedDiff1 = []
  · rcases hreach with hne | ⟨hmf, hstage⟩
    · exact absurd ht hne
    · refine ⟨(getModifiedFiles env.porcelain).map (fun f => Event.gitAdd f.filename), ?_, ?_, ?_, ?_⟩
      · rw [runModel, if_neg (by rw [hrepo]; simp), if_pos ht]
        rw [autoStageFiles, if_neg hmf, if_pos (by rw [hstage])]
        rw [diffUsed, if_pos ht]
      · simp
      · simp
      · simp
  · refine ⟨[], ?_, rfl, rfl, by simp⟩
    rw [runModel, if_neg (by rw [hrepo]; simp), if_neg ht, diffUsed, if_neg ht]

/-- C1: for every decision sequence ending in the token `a` (its earlier
tokens being edits, regenerates or invalid inputs, with enough oracle input
for each), the run performs exactly one `git commit`, and the message passed
to it is the candidate in effect when `a` was chosen: the initial generated
message as transformed by the preceding edits and regenerations
(`candidateFold`); the run then ends normally. -/
theorem claim1_accept_commits_candidate (env : RunEnv) (cs : List Str) (t g0 : Str)
    (grest : List Str)
    (hrepo : env.isRepo = true)
    (hreach : trimStr env.stagedDiff1 ≠ [] ∨
      (getModifiedFiles env.porcelain ≠ [] ∧ env.stageOk = true))
    (hgens : env.gens = g0 :: grest)
    (hchoices : env.choices = cs ++ [t])
    (ht : toLowerStr t = "a".data)
    (hnoac : ∀ x ∈ cs, toLowerStr x ≠ "a".data ∧ toLowerStr x ≠ "c".data)
    (he : countTok "e".data cs ≤ env.edits.length)
    (hr : countTok "r".data cs ≤ grest.length)
    (hok : env.commitOk = true) :
    commitAttempts (runModel env).2 = [(candidateFold cs env.edits grest g0, true)]
      ∧ (runModel env).1 = RunOutcome.finished := by
  obtain ⟨pre, hrm, hca, hrc, hgen⟩ := runModel_reach env hrepo hreach
  have hskip := loop_skip (diffUsed env) env.files env.projectType env.commitOk cs
    env.edits grest g0 [t] hnoac he hr
  have hterm := loop_tok_a (diffUsed env) env.files env.projectType env.commitOk t []
    (env.edits.drop (countTok "e".data cs)) (grest.drop (countTok "r".data cs))
    (candidateFold cs env.edits grest g0) ht
  rw [hrm]
  simp only [runFromGeneration, hgens, hchoices]
  constructor
  · rw [commitAttempts_append, hca, commitAttempts_generate, hskip.2.1, hterm, hok]
    simp [commitChanges]
  · rw [hskip.1, hterm]

theorem claim1_accept_commits_candidate_witness :
    commitAttempts (runModel (RunEnv.mk true "D".data "".data true "".data []
        "js".data ["m1".data, "m2".data] ["R".data, "E".data, "a".data]
        ["edited".data] true)).2
      = [("edited".data, true)]
      ∧ (runModel (RunEnv.mk true "D".data "".data true "".data []
          "js".data ["m1".data, "m2".data] ["R".data, "E".data, "a".data]
          ["edited".data] true)).1 = RunOutcome.finished := by
  have h := claim1_accept_commits_candidate
    (RunEnv.mk true "D".data "".data true "".data [] "js".data
      ["m1".data, "m2".data] ["R".data, "E".data, "a".data] ["edited".data] true)
    ["R".data, "E".data] "a".data "m1".data ["m2".data]
    rfl (Or.inl (by decide)) rfl rfl (by decide) (by decide) (by decide) (by decide) rfl
  exact h

/-- C3: for every decision sequence in which `c` occurs before any `a`, the
loop reaches the terminal `Cancelled` state, the run performs no `git commit`
at all (zero commits are created), and the run ends normally. -/
theorem claim3_cancel_zero_commits (env : RunEnv) (cs : List Str) (t g0 : Str)
    (rest grest : List Str)
    (hrepo : env.isRepo = true)
    (hreach : trimStr env.stagedDiff1 ≠ [] ∨
      (getModifiedFiles env.porcelain ≠ [] ∧ env.stageOk = true))
    (hgens : env.gens = g0 :: grest)
    (hchoices : env.choices = cs ++ t :: rest)
    (ht : toLowerStr t = "c".data)
    (hnoac : ∀ x ∈ cs, toLowerStr x ≠ "a".data ∧ toLowerStr x ≠ "c".data)
    (he : countTok "e".data cs ≤ env.edits.length)
    (hr : countTok "r".data cs ≤ grest.length) :
    commitAttempts (runModel env).2 = []
      ∧ (loop (diffUsed env) env.files env.projectType env.commitOk env.choices
          env.edits grest g0).1 = LoopResult.cancelled
      ∧ (runModel env).1 = RunOutcome.finished := by
  obtain ⟨pre, hrm, hca, hrc, hgen⟩ := runModel_reach env hrepo hreach
  have hskip := loop_skip (diffUsed env) env.files env.projectType env.commitOk cs
    env.edits grest g0 (t :: rest) hnoac he hr
  have hterm := loop_tok_c (diffUsed env) env.files env.projectType env.commitOk t rest
    (env.edits.drop (countTok "e".data cs)) (grest.drop (countTok "r".data cs))
    (candidateFold cs env.edits grest g0) ht
  rw [hrm]
  simp only [runFromGeneration, hgens, hchoices]
  refine ⟨?_, ?_, ?_⟩
  · rw [commitAttempts_append, hca, commitAttempts_generate, hskip.2.1, hterm]
    rfl
  · rw [hskip.1, hterm]
  · rw [hskip.1, hterm]

theorem claim3_cancel_zero_commits_witness :
    commitAttempts (runModel (RunEnv.mk true "D".data "".data true "".data []
        "js".data ["m1".data, "m2".data] ["r".data, "C".data, "a".data]
        [] true)).2 = []
      ∧ (loop (diffUsed (RunEnv.mk true "D".data "".data true "".data []
          "js".data ["m1".data, "m2".data] ["r".data, "C".data, "a".data] [] true))
          [] "js".data true ["r".data, "C".data, "a".data] [] ["m2".data]
          "m1".data).1 = LoopResult.cancelled
      ∧ (runModel (RunEnv.mk true "D".data "".data true "".data []
          "js".data ["m1".data, "m2".data] ["r".data, "C".data, "a".data]
          [] true)).1 = RunOutcome.finished := by
  have h := claim3_cancel_zero_commits
    (RunEnv.mk true "D".data "".data true "".data [] "js".data
      ["m1".data, "m2".data] ["r".data, "C".data, "a".data] [] true)
    ["r".data] "C".data "m1".data ["a".data] ["m2".data]
    rfl (Or.inl (by decide)) rfl rfl (by decide) (by decide) (by decide) (by decide)
  exact h

/-- C4: the loop dispatches only on the lowercased decision token, so any two
raw inputs with the same lowercasing behave identically (in particular an
uppercase variant of a valid token acts as its lowercase form); and a token
outside `a`, `e`, `r`, `c` (case-insensitively) changes nothing: the loop
prints the guidance message and continues exactly as it would on the
remaining input, with candidate and all other state untouched — in
particular that input alone never makes the loop terminate. -/
theorem claim4_invalid_token_self_loop (d : Str) (f : List Str) (p : Str) (ok : Bool)
    (raw raw' : Str) (cs edits gens : List Str) (msg : Str) :
    (toLowerStr raw' = toLowerStr raw →
      loop d f p ok (raw' :: cs) edits gens msg = loop d f p ok (raw :: cs) edits gens msg)
    ∧ (toLowerStr raw ≠ "a".data → toLowerStr raw ≠ "e".data →
        toLowerStr raw ≠ "r".data → toLowerStr raw ≠ "c".data →
        loop d f p ok (raw :: cs) edits gens msg
          = ((loop d f p ok cs edits gens msg).1,
              Event.invalidGuidance :: (loop d f p ok cs edits gens msg).2)) := by
  constructor
  · intro hlow
    simp only [loop]
    rw [hlow]
  · intro ha he hr hc
    exact loop_tok_other d f p ok raw cs edits gens msg ha he hr hc

theorem claim4_invalid_token_self_loop_witness :
    (loop "d".data [] "p".data true ["X".data] [] [] "m".data
        = loop "d".data [] "p".data true ["x".data] [] [] "m".data)
      ∧ (loop "d".data [] "p".data true ["x".data] [] [] "m".data
          = ((loop "d".data [] "p".data true [] [] [] "m".data).1,
              Event.invalidGuidance :: (loop "d".data [] "p".data true [] [] [] "m".data).2)) :=
  ⟨(claim4_invalid_token_self_loop "d".data [] "p".data true "x".data "X".data
      [] [] [] "m".data).1 (by decide),
    (claim4_invalid_token_self_loop "d".data [] "p".data true "x".data "x".data
      [] [] [] "m".data).2 (by decide) (by decide) (by decide) (by decide)⟩

/-- C5 counterexample: when the user accepts and `git commit` fails, the
failure is caught inside `commitChanges` and `run` returns normally, so the
process exits with status 0 — not with a non-zero exit code as the claim
states.  (The commit was attempted once and the failure reported.) -/
theorem claim5_counterexample_exit_code_zero :
    exitStatus (runModel (RunEnv.mk true "D".data "".data true "".data []
        "js".data ["m".data] ["a".data] [] false)).1 = some 0
      ∧ commitAttempts (runModel (RunEnv.mk true "D".data "".data true "".data []
          "js".data ["m".data] ["a".data] [] false)).2 = [("m".data, false)]
      ∧ reportCount (runModel (RunEnv.mk true "D".data "".data true "".data []
          "js".data ["m".data] ["a".data] [] false)).2 = 1 := by
  decide

/-- C5 (amended): a `git commit` failure after the user chooses `a` is caught
locally inside `commitChanges` and reported, the loop terminates without
retrying (exactly one commit attempt) and without returning to `Presenting`,
and the run returns normally, so the process exits with status 0 (the
spec-claimed non-zero exit code does not happen). -/
theorem claim5_commit_failure_caught_exit0 (env : RunEnv) (cs : List Str) (t g0 : Str)
    (grest : List Str)
    (hrepo : env.isRepo = true)
    (hreach : trimStr env.stagedDiff1 ≠ [] ∨
      (getModifiedFiles env.porcelain ≠ [] ∧ env.stageOk = true))
    (hgens : env.gens = g0 :: grest)
    (hchoices : env.choices = cs ++ [t])
    (ht : toLowerStr t = "a".data)
    (hnoac : ∀ x ∈ cs, toLowerStr x ≠ "a".data ∧ toLowerStr x ≠ "c".data)
    (he : countTok "e".data cs ≤ env.edits.length)
    (hr : countTok "r".data cs ≤ grest.length)
    (hok : env.commitOk = false) :
    commitAttempts (runModel env).2 = [(candidateFold cs env.edits grest g0, false)]
      ∧ reportCount (runModel env).2 = 1
      ∧ (loop (diffUsed env) env.files env.projectType env.commitOk env.choices
          env.edits grest g0).1
          = LoopResult.committed (candidateFold cs env.edits grest g0) false
      ∧ exitStatus (runModel env).1 = some 0 := by
  obtain ⟨pre, hrm, hca, hrc, hgen⟩ := runModel_reach env hrepo hreach
  have hskip := loop_skip (diffUsed env) env.files env.projectType env.commitOk cs
    env.edits grest g0 [t] hnoac he hr
  have hterm := loop_tok_a (diffUsed env) env.files env.projectType env.commitOk t []
    (env.edits.drop (countTok "e".data cs)) (grest.drop (countTok "r".data cs))
    (candidateFold cs env.edits grest g0) ht
  rw [hrm]
  simp only [runFromGeneration, hgens, hchoices]
  refine ⟨?_, ?_, ?_, ?_⟩
  · rw [commitAttempts_append, hca, commitAttempts_generate, hskip.2.1, hterm, hok]
    simp [commitChanges]
  · rw [reportCount_append, hrc, reportCount_generate, hskip.2.2, hterm, hok]
    simp [commitChanges, reportCount]
  · rw [hskip.1, hterm, hok]
  · rw [hskip.1, hterm]
    rfl

theorem claim5_commit_failure_caught_exit0_witness :
    commitAttempts (runModel (RunEnv.mk true "D".data "".data true "".data []
        "js".data ["m".data] ["a".data] [] false)).2 = [("m".data, false)]
      ∧ reportCount (runModel (RunEnv.mk true "D".data "".data true "".data []
          "js".data ["m".data] ["a".data] [] false)).2 = 1
      ∧ (loop (diffUsed (RunEnv.mk true "D".data "".data true "".data []
          "js".data ["m".data] ["a".data] [] false)) [] "js".data false
          ["a".data] [] [] "m".data).1 = LoopResult.committed "m".data false
      ∧ exitStatus (runModel (RunEnv.mk true "D".data "".data true "".data []
          "js".data ["m".data] ["a".data] [] false)).1 = some 0 := by
  have h := claim5_commit_failure_caught_exit0
    (RunEnv.mk true "D".data "".data true "".data [] "js".data
      ["m".data] ["a".data] [] false)
    [] "a".data "m".data []
    rfl (Or.inl (by decide)) rfl rfl (by decide) (by decide) (by decide) (by decide) rfl
  exact h

/-- C7: when the staged diff is blank and the eligible working-tree change
list is empty, the run exits with status 1 and emits no events at all — in
particular the message generator is never invoked, so no network call is
made. -/
theorem claim7_nothing_to_commit_exits (env : RunEnv)
    (htrim : trimStr env.stagedDiff1 = [])
    (hmf : getModifiedFiles env.porcelain = []) :
    (runModel env).1 = RunOutcome.exited 1 ∧ (runModel env).2 = [] := by
  by_cases hrepo : env.isRepo = false
  · rw [runModel, if_pos hrepo]
    exact ⟨rfl, rfl⟩
  · have hauto : autoStageFiles env.porcelain env.stageOk = (StageResult.noFiles, []) := by
      rw [autoStageFiles]
      simp [hmf]
    rw [runModel, if_neg hrepo, if_pos htrim, hauto]
    exact ⟨rfl, rfl⟩

theorem claim7_nothing_to_commit_exits_witness :
    (runModel (RunEnv.mk true "  \n".data " D gone.js\n?? big.bin".data true
        "".data [] "js".data ["m".data] ["a".data] [] true)).1 = RunOutcome.exited 1
      ∧ (runModel (RunEnv.mk true "  \n".data " D gone.js\n?? big.bin".data true
          "".data [] "js".data ["m".data] ["a".data] [] true)).2 = [] := by
  have h := claim7_nothing_to_commit_exits
    (RunEnv.mk true "  \n".data " D gone.js\n?? big.bin".data true
      "".data [] "js".data ["m".data] ["a".data] [] true)
    (by decide) (by decide)
  exact h

/-- C8: an edit decision with an empty submitted line is an identity on the
candidate — `getEditedMessage` returns the original and the loop continues
exactly as if with the unchanged candidate — while a non-empty submitted
line replaces the candidate with exactly that text. -/
theorem claim8_edit_empty_keeps_candidate (d : Str) (f : List Str) (p : Str) (ok : Bool)
    (raw : Str) (cs es gens : List Str) (msg t : Str)
    (hraw : toLowerStr raw = "e".data) :
    getEditedMessage msg [] = msg
      ∧ (t ≠ [] → getEditedMessage msg t = t)
      ∧ loop d f p ok (raw :: cs) ([] :: es) gens msg = loop d f p ok cs es gens msg
      ∧ (t ≠ [] → loop d f p ok (raw :: cs) (t :: es) gens msg = loop d f p ok cs es gens t) := by
  refine ⟨rfl, ?_, ?_, ?_⟩
  · intro hne
    rw [getEditedMessage, if_neg hne]
  · rw [loop_tok_e _ _ _ _ _ _ _ _ _ _ hraw]
    rfl
  · intro hne
    rw [loop_tok_e _ _ _ _ _ _ _ _ _ _ hraw, getEditedMessage, if_neg hne]

theorem claim8_edit_empty_keeps_candidate_witness :
    getEditedMessage "m".data [] = "m".data
      ∧ getEditedMessage "m".data "new".data = "new".data
      ∧ loop "d".data [] "p".data true ["E".data] ["".data] [] "m".data
          = loop "d".data [] "p".data true [] [] [] "m".data
      ∧ loop "d".data [] "p".data true ["E".data] ["new".data] [] "m".data
          = loop "d".data [] "p".data true [] [] [] "new".data := by
  have h := claim8_edit_empty_keeps_candidate "d".data [] "p".data true "E".data
    [] [] [] "m".data "new".data (by decide)
  exact ⟨h.1, h.2.1 (by decide), h.2.2.1, h.2.2.2 (by decide)⟩

/-- Not a claim theorem by itself: no generator event is emitted by
auto-staging. -/
theorem autoStage_no_generate (porcelain : Str) (stageOk : Bool) (d : Str)
    (f : List Str) (p : Str) :
    Event.generate d f p ∉ (autoStageFiles porcelain stageOk).2 := by
  rw [autoStageFiles]
  by_cases hmf : getModifiedFiles porcelain = []
  · simp [hmf]
  · by_cases hok : stageOk
    · simp [hmf, hok]
    · simp [hmf, hok]

/-- Generator invocations recorded past the generation entry point all carry
the settled diff, file list and project type. -/
theorem runFromGeneration_generate_args (env : RunEnv) (diff : Str) (pre : List Event)
    (hpre : ∀ (d : Str) (f : List Str) (p : Str), Event.generate d f p ∉ pre)
    (d' : Str) (f' : List Str) (p' : Str)
    (hmem : Event.generate d' f' p' ∈ (runFromGeneration env diff pre).2) :
    d' = diff ∧ f' = env.files ∧ p' = env.projectType := by
  rw [runFromGeneration] at hmem
  rcases hg : env.gens with _ | ⟨g0, grest⟩
  · rw [hg] at hmem
    exact absurd hmem (hpre d' f' p')
  · rw [hg] at hmem
    simp only [List.mem_append, List.mem_cons] at hmem
    rcases hmem with hin | heq | hin
    · exact absurd hin (hpre d' f' p')
    · injection heq with h1 h2 h3
      exact ⟨h1, h2, h3⟩
    · exact loop_generate_mem diff env.files env.projectType env.commitOk env.choices
        env.edits grest g0 d' f' p' hin

/-- C9: the diff, file list and project type are fixed at loop entry: every
generator invocation the run ever records — the initial one and every
regenerate — carries exactly the settled diff (`diffUsed`), the file list
and the project type fetched before the loop; nothing is refreshed
mid-loop. -/
theorem claim9_generate_args_fixed (env : RunEnv) (d' : Str) (f' : List Str) (p' : Str)
    (hmem : Event.generate d' f' p' ∈ (runModel env).2) :
    d' = diffUsed env ∧ f' = env.files ∧ p' = env.projectType := by
  rw [runModel] at hmem
  by_cases hrepo : env.isRepo = false
  · rw [if_pos hrepo] at hmem
    simp at hmem
  · rw [if_neg hrepo] at hmem
    by_cases htrim : trimStr env.stagedDiff1 = []
    · rw [if_pos htrim] at hmem
      rcases hauto : autoStageFiles env.porcelain env.stageOk with ⟨st, ev⟩
      rw [hauto] at hmem
      have hev : ∀ (d : Str) (f : List Str) (p : Str), Event.generate d f p ∉ ev := by
        intro d f p
        have := autoStage_no_generate env.porcelain env.stageOk d f p
        rw [hauto] at this
        exact this
      cases st with
      | noFiles => simp at hmem
      | failed => exact absurd hmem (hev d' f' p')
      | staged paths =>
        have := runFromGeneration_generate_args env env.stagedDiff2 ev hev d' f' p' hmem
        rw [diffUsed, if_pos htrim]
        exact this
    · rw [if_neg htrim] at hmem
      have := runFromGeneration_generate_args env env.stagedDiff1 [] (by simp) d' f' p' hmem
      rw [diffUsed, if_neg htrim]
      exact this

theorem claim9_generate_args_fixed_witness :
    "D".data = diffUsed (RunEnv.mk true "D".data "".data true "".data ["f.js".data]
        "js".data ["m1".data, "m2".data] ["r".data] [] true)
      ∧ ["f.js".data] = (RunEnv.mk true "D".data "".data true "".data ["f.js".data]
          "js".data ["m1".data, "m2".data] ["r".data] [] true).files
      ∧ "js".data = (RunEnv.mk true "D".data "".data true "".data ["f.js".data]
          "js".data ["m1".data, "m2".data] ["r".data] [] true).projectType := by
  have h := claim9_generate_args_fixed
    (RunEnv.mk true "D".data "".data true "".data ["f.js".data]
      "js".data ["m1".data, "m2".data] ["r".data] [] true)
    "D".data ["f.js".data] "js".data (by decide)
  exact h

/-- Round trip of the quote-only escaping through shell double-quote
processing, for messages free of the characters the escaping does not
handle (backslash, dollar, backquote). -/
theorem dquoteRun_escapeQuotes (s : Str) (h1 : '\\' ∉ s) (h2 : '$' ∉ s)
    (h3 : Char.ofNat 96 ∉ s) :
    dquoteRun (escapeQuotes s ++ ['"']) = some (s, []) := by
  induction s with
  | nil => simp [escapeQuotes, dquoteRun]
  | cons c r ih =>
    have hc1 : c ≠ '\\' := fun hh => h1 (hh ▸ List.mem_cons_self c r)
    have hc2 : c ≠ '$' := fun hh => h2 (hh ▸ List.mem_cons_self c r)
    have hc3 : c ≠ Char.ofNat 96 := fun hh => h3 (hh ▸ List.mem_cons_self c r)
    have h1' : '\\' ∉ r := fun hh => h1 (List.mem_cons_of_mem c hh)
    have h2' : '$' ∉ r := fun hh => h2 (List.mem_cons_of_mem c hh)
    have h3' : Char.ofNat 96 ∉ r := fun hh => h3 (List.mem_cons_of_mem c hh)
    by_cases hq : c = '"'
    · subst hq
      show dquoteRun ('\\' :: '"' :: (escapeQuotes r ++ ['"'])) = some ('"' :: r, [])
      rw [dquoteRun.eq_def]
      simp [ih h1' h2' h3']
    · have hesc : escapeQuotes (c :: r) = c :: escapeQuotes r := by
        rw [escapeQuotes, if_neg hq]
      rw [hesc, List.cons_append, dquoteRun.eq_def]
      simp [hq, hc1, hc2, hc3, ih h1' h2' h3']

/-- C2 counterexample: the claim fails for messages containing backslashes.
The message `a\\b` (two backslashes) contains no double quote, so
`message.replace(/"/g, '\\"')` leaves it unchanged; inside the double-quoted
shell word the `\\` collapses to a single backslash, and `git commit`
receives `a\b` — not the original message. -/
theorem claim2_counterexample_backslash :
    argDeliveredToGit "a\\\\b".data = some "a\\b".data
      ∧ argDeliveredToGit "a\\\\b".data ≠ some "a\\\\b".data := by
  decide

/-- C2 (amended): for every commit message containing no backslash, dollar or
backquote character, `commitChanges`' replacement of each embedded double
quote by a backslash-escaped double quote, wrapped in double quotes, makes
the shell deliver exactly the original message text to `git commit`,
untruncated — in particular for all messages containing double quotes. -/
theorem claim2_quote_escaping_roundtrip (s : Str) (h1 : '\\' ∉ s) (h2 : '$' ∉ s)
    (h3 : Char.ofNat 96 ∉ s) :
    argDeliveredToGit s = some s := by
  rw [argDeliveredToGit, dquoteRun_escapeQuotes s h1 h2 h3]

theorem claim2_quote_escaping_roundtrip_witness :
    argDeliveredToGit "fix(parser): handle \"null\" token".data
      = some "fix(parser): handle \"null\" token".data :=
  claim2_quote_escaping_roundtrip "fix(parser): handle \"null\" token".data
    (by decide) (by decide) (by decide)

/-- C6 (evaluation at the failing input): with two modified tracked files the
porcelain output is ` M a.js\n M b.js`; `getModifiedFiles` trims the whole
output before splitting, which strips the leading space of the *first* line
only, so that line's columns shift: its status is read as `M ` and its
filename as `.js` instead of `a.js`.  Both entries are still selected, but
the staged paths are `[.js, b.js]`, not the two modified files — the
auto-stage step does not stage exactly the eligible files. -/
theorem claim6_trim_mangles_first_entry :
    getModifiedFiles " M a.js\n M b.js".data
      = [GitFile.mk "M ".data ".js".data, GitFile.mk " M".data "b.js".data]
      ∧ (getModifiedFiles " M a.js\n M b.js".data).map GitFile.filename
          ≠ ["a.js".data, "b.js".data]
      ∧ (autoStageFiles " M a.js\n M b.js".data true).1
          = StageResult.staged [".js".data, "b.js".data] := by
  decide

theorem hexVal_hexDig (n : Nat) (h : n < 16) : hexVal (hexDig n) = some n := by
  interval_cases n <;> decide

/-- Parsing inverts the character-level JSON escaping. -/
theorem parseJsonStr_escapeChar (c : Char) (rest : Str) :
    parseJsonStr (jsonEscapeChar c ++ rest)
      = (parseJsonStr rest).map (fun p => (c :: p.1, p.2)) := by
  by_cases h1 : c = '"'
  · subst h1
    show parseJsonStr ('\\' :: '"' :: rest) = (parseJsonStr rest).map (fun p => ('"' :: p.1, p.2))
    rw [parseJsonStr.eq_def]
    simp
  · by_cases h2 : c = '\\'
    · subst h2
      show parseJsonStr ('\\' :: '\\' :: rest)
          = (parseJsonStr rest).map (fun p => ('\\' :: p.1, p.2))
      rw [parseJsonStr.eq_def]
      simp
    · by_cases h3 : c = Char.ofNat 8
      · subst h3
        show parseJsonStr ('\\' :: 'b' :: rest)
            = (parseJsonStr rest).map (fun p => (Char.ofNat 8 :: p.1, p.2))
        rw [parseJsonStr.eq_def]
        simp
      · by_cases h4 : c = Char.ofNat 9
        · subst h4
          show parseJsonStr ('\\' :: 't' :: rest)
              = (parseJsonStr rest).map (fun p => (Char.ofNat 9 :: p.1, p.2))
          rw [parseJsonStr.eq_def]
          simp
        · by_cases h5 : c = Char.ofNat 10
          · subst h5
            show parseJsonStr ('\\' :: 'n' :: rest)
                = (parseJsonStr rest).map (fun p => (Char.ofNat 10 :: p.1, p.2))
            rw [parseJsonStr.eq_def]
            simp
          · by_cases h6 : c = Char.ofNat 12
            · subst h6
              show parseJsonStr ('\\' :: 'f' :: rest)
                  = (parseJsonStr rest).map (fun p => (Char.ofNat 12 :: p.1, p.2))
              rw [parseJsonStr.eq_def]
              simp
            · by_cases h7 : c = Char.ofNat 13
              · subst h7
                show parseJsonStr ('\\' :: 'r' :: rest)
                    = (parseJsonStr rest).map (fun p => (Char.ofNat 13 :: p.1, p.2))
                rw [parseJsonStr.eq_def]
                simp
              · by_cases h8 : c.toNat < 32
                · have hdiv : c.toNat / 16 < 16 := by omega
                  have hmod : c.toNat % 16 < 16 := by omega
                  simp only [jsonEscapeChar, if_neg h1, if_neg h2, if_neg h3, if_neg h4,
                    if_neg h5, if_neg h6, if_neg h7, if_pos h8]
                  simp only [List.cons_append, List.nil_append, parseJsonStr,
                    hexVal_hexDig _ hdiv, hexVal_hexDig _ hmod]
                  have hvz : hexVal '0' = some 0 := by decide
                  simp only [hvz]
                  have harith : c.toNat / 16 * 16 + c.toNat % 16 = c.toNat := by omega
                  simp [harith, Char.ofNat_toNat]
                · have hesc : jsonEscapeChar c = [c] := by
                    rw [jsonEscapeChar, if_neg h1, if_neg h2, if_neg h3, if_neg h4,
                      if_neg h5, if_neg h6, if_neg h7, if_neg h8]
                  rw [hesc, List.cons_append, List.nil_append, parseJsonStr.eq_def]
                  simp [h1, h2, h8]

/-- Parsing inverts the string-level JSON escaping up to the closing quote. -/
theorem parseJsonStr_escapeString (s : Str) :
    ∀ rest : Str, parseJsonStr (jsonEscapeString s ++ '"' :: rest) = some (s, rest) := by
  induction s with
  | nil =>
    intro rest
    show parseJsonStr ('"' :: rest) = some ([], rest)
    rw [parseJsonStr.eq_def]
    simp
  | cons c r ih =>
    intro rest
    rw [jsonEscapeString, List.append_assoc, parseJsonStr_escapeChar, ih rest]
    rfl

/-- C10: configuration save/load round-trips.  `saveConfig(k)` writes the
JSON object whose only member is `apiKey` with value `k`; a subsequent
`loadConfig` parses it back to exactly `k` and, when `k` is non-empty
(truthy), initializes the API client with it; for the empty key the client
stays uninitialized. -/
theorem claim10_config_roundtrip (k : Str) :
    parseConfigFile (saveConfigContent k) = some k
      ∧ (k ≠ [] → loadConfigClient (saveConfigContent k) = some k)
      ∧ (k = [] → loadConfigClient (saveConfigContent k) = none) := by
  have hparse : parseConfigFile (saveConfigContent k) = some k := by
    have hkey : ∀ rest : Str,
        parseJsonStr ('a' :: 'p' :: 'i' :: 'K' :: 'e' :: 'y' :: '"' :: rest)
          = some ("apiKey".data, rest) :=
      fun rest => parseJsonStr_escapeString "apiKey".data rest
    simp [saveConfigContent, parseConfigFile, skipWs, hkey, parseJsonStr_escapeString]
  refine ⟨hparse, ?_, ?_⟩
  · intro hk
    rw [loadConfigClient, hparse]
    simp [hk]
  · intro hk
    rw [loadConfigClient, hparse]
    simp [hk]

theorem claim10_config_roundtrip_witness :
    loadConfigClient (saveConfigContent "sk-test".data) = some "sk-test".data
      ∧ loadConfigClient (saveConfigContent []) = none :=
  ⟨(claim10_config_roundtrip "sk-test".data).2.1 (by decide),
    (claim10_config_roundtrip []).2.2 rfl⟩

